import Mathlib

/-!
Verification development for the Babylon.js farm terrain viewer
(`main.js`, class `FarmViewer`).

The viewer's numeric state is modelled over `ℚ` where the source performs
plain arithmetic, and over `ℝ` where the source uses `Math.sqrt` or
`Math.PI`.  Engine collaborators (mesh import, bounding-box queries,
existence probes) are out of scope of the repository and are modelled as
parameters or, where the design document fixes their contract, as
definitions marked "Modelled from the spec".
-/

namespace FarmViewer

/-- 3D vector over ℚ (component arithmetic of `BABYLON.Vector3`). -/
structure Vec3 where
  x : ℚ
  y : ℚ
  z : ℚ
deriving DecidableEq, Repr

instance : Add Vec3 := ⟨fun a b => ⟨a.x + b.x, a.y + b.y, a.z + b.z⟩⟩

/-- Axis-aligned bounding box (`boundingBox.minimum` / `boundingBox.maximum`). -/
structure BBox where
  min : Vec3
  max : Vec3
deriving DecidableEq, Repr

/-- A mesh handle as the loader observes and mutates it: its bounding box,
whether `checkCollisions` is set, whether it carries a material, and that
material's `backFaceCulling` flag (folded into the mesh record). -/
structure Mesh where
  name : String
  bbox : BBox
  checkCollisions : Bool
  hasMaterial : Bool
  backFaceCulling : Bool
deriving DecidableEq, Repr

/-! ## Asset resolver (`findObjFile`) -/

/-- Outcome of one `fetch(..., { method: 'HEAD' })` existence probe:
the response is ok, the response is not ok, or the fetch throws. -/
inductive ProbeResult where
  | ok
  | notOk
  | err
deriving DecidableEq, Repr

/-- The candidate filename list `possibleNames` of `findObjFile`. -/
def possibleNames (terrainName : String) : List String :=
  ["terrain.obj", terrainName ++ ".obj", "Geordie.obj", "model.obj",
   "mesh.obj", "farm.obj"]

/-- The `for (const fileName of possibleNames)` loop body: return the first
candidate whose probe response is ok; a probe that is not ok or that throws
falls through to the next candidate. -/
def tryCandidates (probe : String → ProbeResult) : List String → Option String
  | [] => none
  | f :: fs => if probe f = ProbeResult.ok then some f else tryCandidates probe fs

/-- `findObjFile(terrainName)`: probe the candidates in order; when none
reports existing, fall back to the expected name `terrainName + ".obj"`. -/
def findObjFile (terrainName : String) (probe : String → ProbeResult) : String :=
  (tryCandidates probe (possibleNames terrainName)).getD (terrainName ++ ".obj")

/-- Collapse a probe-thrown error into a plain "does not exist" response. -/
def collapseErr (probe : String → ProbeResult) : String → ProbeResult :=
  fun f => match probe f with
    | ProbeResult.err => ProbeResult.notOk
    | r => r

lemma tryCandidates_eq_find? (probe : String → ProbeResult) (l : List String) :
    tryCandidates probe l = l.find? (fun f => probe f = ProbeResult.ok) := by
  induction l with
  | nil => rfl
  | cons f fs ih =>
      by_cases h : probe f = ProbeResult.ok
      · simp [tryCandidates, List.find?, h]
      · simp [tryCandidates, List.find?, h, ih]

lemma collapseErr_ok (probe : String → ProbeResult) (f : String) :
    (collapseErr probe f = ProbeResult.ok) ↔ (probe f = ProbeResult.ok) := by
  unfold collapseErr
  cases h : probe f <;> simp [h]

lemma tryCandidates_collapseErr (probe : String → ProbeResult) (l : List String) :
    tryCandidates (collapseErr probe) l = tryCandidates probe l := by
  induction l with
  | nil => rfl
  | cons f fs ih =>
      unfold tryCandidates
      rcases h : probe f with _ | _ | _ <;>
        simp [collapseErr, h, ih]

lemma append_obj_ne_empty (s : String) : s ++ ".obj" ≠ "" := by
  intro h
  have h2 : (s ++ ".obj").data = ([] : List Char) := by rw [h]
  rw [String.data_append] at h2
  have h3 : (".obj").data = ['.', 'o', 'b', 'j'] := rfl
  rw [h3] at h2
  simp at h2

lemma possibleNames_ne_empty (terrainName : String) :
    ∀ f ∈ possibleNames terrainName, f ≠ "" := by
  intro f hf
  simp only [possibleNames, List.mem_cons, List.not_mem_nil, or_false] at hf
  rcases hf with h | h | h | h | h | h <;> subst h
  · decide
  · exact append_obj_ne_empty terrainName
  · decide
  · decide
  · decide
  · decide

/-- C4.  The resolver is total with a fixed priority order: it returns the
first candidate whose probe reports ok (`List.find?` over the ordered
candidate list); a probe that throws behaves exactly like a probe reporting
non-existence; and when every probe fails the result is the identifier-matched
default `terrainName ++ ".obj"`, which is non-empty — hence the result is
always non-empty. -/
theorem findObjFile_first_ok_total (terrainName : String) (probe : String → ProbeResult) :
    findObjFile terrainName probe =
      ((possibleNames terrainName).find? (fun f => probe f = ProbeResult.ok)).getD
        (terrainName ++ ".obj")
    ∧ findObjFile terrainName (collapseErr probe) = findObjFile terrainName probe
    ∧ ((∀ f ∈ possibleNames terrainName, probe f ≠ ProbeResult.ok) →
        findObjFile terrainName probe = terrainName ++ ".obj")
    ∧ findObjFile terrainName probe ≠ "" := by
  refine ⟨by rw [findObjFile, tryCandidates_eq_find?], ?_, ?_, ?_⟩
  · rw [findObjFile, findObjFile, tryCandidates_collapseErr]
  · intro hall
    rw [findObjFile, tryCandidates_eq_find?]
    rw [List.find?_eq_none.mpr (by intro f hf; simpa using hall f hf)]
    rfl
  · rw [findObjFile]
    cases h : tryCandidates probe (possibleNames terrainName) with
    | none =>
        simp only [Option.getD_none]
        exact append_obj_ne_empty terrainName
    | some f =>
        have hf : f ∈ possibleNames terrainName := by
          rw [tryCandidates_eq_find?] at h
          exact List.mem_of_find?_eq_some h
        simpa using possibleNames_ne_empty terrainName f hf

/-- C4 witness: with every probe throwing, resolution of "BlockAB" falls
through every candidate and returns the non-empty default "BlockAB.obj". -/
theorem findObjFile_first_ok_total_witness :
    findObjFile "BlockAB" (fun _ => ProbeResult.err) = "BlockAB" ++ ".obj"
    ∧ findObjFile "BlockAB" (fun _ => ProbeResult.err) ≠ "" := by
  have h := findObjFile_first_ok_total "BlockAB" (fun _ => ProbeResult.err)
  exact ⟨h.2.2.1 (by intro f _; simp), h.2.2.2⟩

/-! ## Terrain loader (`loadTerrain`, `createPlaceholderTerrain`) -/

/-- The value assigned to `this.farmMesh`: a single imported mesh, the
synthesized `terrainParent` mesh holding all imported meshes as children,
or the synthesized placeholder ground. -/
inductive FarmMesh where
  | single (m : Mesh)
  | parent (children : List Mesh)
  | placeholder (m : Mesh)
deriving DecidableEq, Repr

/-- Union of two axis-aligned bounding boxes, componentwise. -/
def bboxUnion (a b : BBox) : BBox :=
  ⟨⟨min a.min.x b.min.x, min a.min.y b.min.y, min a.min.z b.min.z⟩,
   ⟨max a.max.x b.max.x, max a.max.y b.max.y, max a.max.z b.max.z⟩⟩

/-- Modelled from the spec: the engine's bounding-box query
`getBoundingBox(entity)` ("Compute the aggregate bounding box over the
(possibly composite) entity") on a composite entity is the union of the
children's boxes.  The engine itself is an out-of-scope collaborator. -/
def aggregateBBox : List Mesh → BBox
  | [] => ⟨⟨0, 0, 0⟩, ⟨0, 0, 0⟩⟩
  | m :: ms => ms.foldl (fun acc c => bboxUnion acc c.bbox) m.bbox

/-- `this.farmMesh.getBoundingInfo().boundingBox` for each entity shape. -/
def entityBBox : FarmMesh → BBox
  | FarmMesh.single m => m.bbox
  | FarmMesh.parent children => aggregateBBox children
  | FarmMesh.placeholder m => m.bbox

/-- The meshes owned by the entity (for the composite, its children). -/
def entityMeshes : FarmMesh → List Mesh
  | FarmMesh.single m => [m]
  | FarmMesh.parent children => children
  | FarmMesh.placeholder m => [m]

/-- The per-mesh processing loop of `loadTerrain`: set
`mesh.checkCollisions = true`; when the mesh carries a material, set
`mesh.material.backFaceCulling = false`. -/
def processMesh (m : Mesh) : Mesh :=
  { m with checkCollisions := true,
           backFaceCulling := if m.hasMaterial then false else m.backFaceCulling }

/-- Apply the processing loop to every mesh of `result.meshes` (for the
composite, those are exactly the children; the synthesized parent itself is
not in `result.meshes`). -/
def processEntity : FarmMesh → FarmMesh
  | FarmMesh.single m => FarmMesh.single (processMesh m)
  | FarmMesh.parent children => FarmMesh.parent (children.map processMesh)
  | FarmMesh.placeholder m => FarmMesh.placeholder m

/-- Smallest entry of a list of heights (`0` for an empty list; the real
ground has 81 vertices, all perturbed). -/
def listMin (l : List ℚ) : ℚ :=
  match l with
  | [] => 0
  | h :: t => t.foldl min h

/-- Largest entry of a list of heights. -/
def listMax (l : List ℚ) : ℚ :=
  match l with
  | [] => 0
  | h :: t => t.foldl max h

/-- `createPlaceholderTerrain`: a 30×30 ground patch centred at the origin
(so x, z ∈ [-15, 15] — ground geometry modelled from the spec's "flat
subdivided ground patch of fixed size"), every vertex height replaced by a
drawn random value (the `heights` parameter; each lies in [0, 3) at run
time), a material attached (its `backFaceCulling` left at the engine default
`true` — this path never clears it), and `checkCollisions = true`.
Crucially, this function does not touch `this.terrainMinY`. -/
def createPlaceholderTerrain (heights : List ℚ) : Mesh :=
  { name := "placeholderTerrain",
    bbox := ⟨⟨-15, listMin heights, -15⟩, ⟨15, listMax heights, 15⟩⟩,
    checkCollisions := true,
    hasMaterial := true,
    backFaceCulling := true }

/-- The loader's observable result state: the fields `this.farmMesh` and
`this.terrainMinY` after `loadTerrain` returns. -/
structure LoadResult where
  farmMesh : FarmMesh
  terrainMinY : ℚ
deriving DecidableEq, Repr

/-- The `catch` branch of `loadTerrain`: synthesize placeholder terrain;
`terrainMinY` keeps its previous value. -/
def placeholderResult (prevMinY : ℚ) (heights : List ℚ) : LoadResult :=
  { farmMesh := FarmMesh.placeholder (createPlaceholderTerrain heights),
    terrainMinY := prevMinY }

/-- `loadTerrain`, with the engine collaborators as parameters: `probe` gives
each candidate filename's existence-probe outcome, `importer` is
`SceneLoader.ImportMeshAsync` (throwing modelled as `Except.error`),
`prevMinY` is the current `this.terrainMinY` (−5 from the constructor), and
`heights` are the random vertex heights a placeholder would use.  Every
failure — an empty resolved name, a throwing import, an import yielding zero
meshes — is caught and falls through to `createPlaceholderTerrain`. -/
def loadTerrain (terrainName : String) (probe : String → ProbeResult)
    (importer : String → Except Unit (List Mesh))
    (prevMinY : ℚ) (heights : List ℚ) : LoadResult :=
  let objFileName := findObjFile terrainName probe
  if objFileName = "" then
    -- `if (!objFileName) throw ...`, caught by the surrounding try/catch
    placeholderResult prevMinY heights
  else
    match importer objFileName with
    | Except.error _ => placeholderResult prevMinY heights
    | Except.ok meshes =>
        match meshes with
        | [] =>
            -- `throw new Error("No meshes found ...")`, caught below
            placeholderResult prevMinY heights
        | m :: rest =>
            let farm0 : FarmMesh :=
              match rest with
              | [] => FarmMesh.single m
              | _ => FarmMesh.parent (m :: rest)
            let boundingBox := entityBBox farm0
            { farmMesh := processEntity farm0,
              terrainMinY := boundingBox.min.y - 1 }

/-- The constructor's initial value `this.terrainMinY = -5`. -/
def initialTerrainMinY : ℚ := -5

lemma findObjFile_ne_empty (terrainName : String) (probe : String → ProbeResult) :
    findObjFile terrainName probe ≠ "" := by
  rw [findObjFile]
  cases h : tryCandidates probe (possibleNames terrainName) with
  | none =>
      simp only [Option.getD_none]
      exact append_obj_ne_empty terrainName
  | some f =>
      have hf : f ∈ possibleNames terrainName := by
        rw [tryCandidates_eq_find?] at h
        exact List.mem_of_find?_eq_some h
      simpa using possibleNames_ne_empty terrainName f hf

lemma processMesh_bbox (m : Mesh) : (processMesh m).bbox = m.bbox := rfl

lemma foldl_bboxUnion_map (b : BBox) (ms : List Mesh) :
    (ms.map processMesh).foldl (fun acc c => bboxUnion acc c.bbox) b
      = ms.foldl (fun acc c => bboxUnion acc c.bbox) b := by
  induction ms generalizing b with
  | nil => rfl
  | cons c cs ih => simpa [List.foldl] using ih (bboxUnion b c.bbox)

lemma aggregateBBox_map_processMesh (ms : List Mesh) :
    aggregateBBox (ms.map processMesh) = aggregateBBox ms := by
  cases ms with
  | nil => rfl
  | cons m rest => simpa [aggregateBBox] using foldl_bboxUnion_map m.bbox rest

lemma entityBBox_processEntity (f : FarmMesh) :
    entityBBox (processEntity f) = entityBBox f := by
  cases f with
  | single m => rfl
  | parent children =>
      simpa [processEntity, entityBBox] using aggregateBBox_map_processMesh children
  | placeholder m => rfl

/-- C1.  `loadTerrain` is total: for every terrain identifier, every probe
outcome, every import outcome (throwing, zero meshes, one mesh, or several),
it produces a terrain entity owning at least one mesh, and at least one of
those meshes has `checkCollisions = true`.  Totality ("never null, never
throws") is carried by the return type: the embedding maps every failure
branch of the source to the placeholder result, not to an exception. -/
theorem loadTerrain_total (terrainName : String) (probe : String → ProbeResult)
    (importer : String → Except Unit (List Mesh)) (prevMinY : ℚ) (heights : List ℚ) :
    entityMeshes (loadTerrain terrainName probe importer prevMinY heights).farmMesh ≠ []
    ∧ ∃ m ∈ entityMeshes (loadTerrain terrainName probe importer prevMinY heights).farmMesh,
        m.checkCollisions = true := by
  rw [loadTerrain]
  simp only [findObjFile_ne_empty terrainName probe, if_false]
  cases himp : importer (findObjFile terrainName probe) with
  | error e => simp [placeholderResult, entityMeshes, createPlaceholderTerrain]
  | ok meshes =>
      cases meshes with
      | nil => simp [placeholderResult, entityMeshes, createPlaceholderTerrain]
      | cons m rest =>
          cases rest with
          | nil => simp [entityMeshes, processEntity, processMesh]
          | cons r rs =>
              refine ⟨by simp [entityMeshes, processEntity], ?_⟩
              exact ⟨processMesh m, by simp [entityMeshes, processEntity], rfl⟩

/-- C1 witness: even with every probe throwing and the import throwing (the
deepest failure path), the loader lands on the placeholder entity with a
collision-enabled mesh. -/
theorem loadTerrain_total_witness :
    entityMeshes (loadTerrain "BlockAB" (fun _ => ProbeResult.err)
        (fun _ => Except.error ()) (-5) [0]).farmMesh ≠ []
    ∧ ∃ m ∈ entityMeshes (loadTerrain "BlockAB" (fun _ => ProbeResult.err)
        (fun _ => Except.error ()) (-5) [0]).farmMesh,
        m.checkCollisions = true :=
  loadTerrain_total "BlockAB" (fun _ => ProbeResult.err) (fun _ => Except.error ()) (-5) [0]

/-- C2, counterexample.  With every probe erroring and the import throwing,
the loader takes the placeholder path; `terrainMinY` keeps its prior value
−5, while the placeholder entity's bounding-box minimum Y minus 1 is −1
(heights all 0).  So `floorY = boundingBox.min.y − 1` fails for placeholder
terrain. -/
theorem loadTerrain_placeholder_floor_counterexample :
    ¬ ((loadTerrain "BlockAB" (fun _ => ProbeResult.err) (fun _ => Except.error ())
          (-5) [0]).terrainMinY
        = (entityBBox (loadTerrain "BlockAB" (fun _ => ProbeResult.err)
            (fun _ => Except.error ()) (-5) [0]).farmMesh).min.y - 1) := by
  have h1 : (loadTerrain "BlockAB" (fun _ => ProbeResult.err) (fun _ => Except.error ())
      (-5) [0]).terrainMinY = -5 := rfl
  have h2 : (entityBBox (loadTerrain "BlockAB" (fun _ => ProbeResult.err)
      (fun _ => Except.error ()) (-5) [0]).farmMesh).min.y = 0 := rfl
  rw [h1, h2]
  norm_num

/-- C2, amended.  After loading, `floorY = boundingBox.min.y − 1` holds in
the imported-terrain case (import returns a non-empty mesh list); in the
placeholder case (import throws, or returns zero meshes) `terrainMinY` is
left at its previous value, independent of the placeholder's bounding box. -/
theorem loadTerrain_floor_amended (terrainName : String) (probe : String → ProbeResult)
    (importer : String → Except Unit (List Mesh)) (prevMinY : ℚ) (heights : List ℚ) :
    (∀ ms : List Mesh, ms ≠ [] → importer (findObjFile terrainName probe) = Except.ok ms →
        (loadTerrain terrainName probe importer prevMinY heights).terrainMinY
          = (entityBBox (loadTerrain terrainName probe importer prevMinY
              heights).farmMesh).min.y - 1)
    ∧ (∀ e : Unit, importer (findObjFile terrainName probe) = Except.error e →
        (loadTerrain terrainName probe importer prevMinY heights).terrainMinY = prevMinY)
    ∧ (importer (findObjFile terrainName probe) = Except.ok [] →
        (loadTerrain terrainName probe importer prevMinY heights).terrainMinY = prevMinY) := by
  refine ⟨?_, ?_, ?_⟩
  · intro ms hne himp
    rw [loadTerrain]
    simp only [findObjFile_ne_empty terrainName probe, if_false, himp]
    cases ms with
    | nil => exact absurd rfl hne
    | cons m rest =>
        cases rest with
        | nil => simp [entityBBox_processEntity]
        | cons r rs => simp [entityBBox_processEntity]
  · intro e himp
    rw [loadTerrain]
    simp only [findObjFile_ne_empty terrainName probe, if_false, himp]
    rfl
  · intro himp
    rw [loadTerrain]
    simp only [findObjFile_ne_empty terrainName probe, if_false, himp]
    rfl

/-- C2 witness for the amended claim: an import returning one mesh with
bounding-box minimum Y = 2 yields `terrainMinY = 1 = min.y − 1`; a
throwing import leaves `terrainMinY` at the prior −5. -/
theorem loadTerrain_floor_amended_witness :
    (loadTerrain "BlockAB" (fun _ => ProbeResult.ok)
        (fun _ => Except.ok [⟨"ground", ⟨⟨-3, 2, -4⟩, ⟨3, 7, 4⟩⟩, false, true, true⟩])
        (-5) []).terrainMinY
      = (entityBBox (loadTerrain "BlockAB" (fun _ => ProbeResult.ok)
          (fun _ => Except.ok [⟨"ground", ⟨⟨-3, 2, -4⟩, ⟨3, 7, 4⟩⟩, false, true, true⟩])
          (-5) []).farmMesh).min.y - 1
    ∧ (loadTerrain "BlockAB" (fun _ => ProbeResult.err) (fun _ => Except.error ())
        (-5) [0]).terrainMinY = -5 := by
  constructor
  · exact (loadTerrain_floor_amended "BlockAB" (fun _ => ProbeResult.ok)
      (fun _ => Except.ok [⟨"ground", ⟨⟨-3, 2, -4⟩, ⟨3, 7, 4⟩⟩, false, true, true⟩])
      (-5) []).1 [⟨"ground", ⟨⟨-3, 2, -4⟩, ⟨3, 7, 4⟩⟩, false, true, true⟩]
      (by decide) rfl
  · exact (loadTerrain_floor_amended "BlockAB" (fun _ => ProbeResult.err)
      (fun _ => Except.error ()) (-5) [0]).2.1 () rfl

/-- C3.  When import succeeds with at least two meshes, the entity is the
single synthesized parent holding every returned mesh (processed) as a
child; every owned mesh has `checkCollisions = true` and, when it carries a
material, `backFaceCulling = false`; and `terrainMinY` is derived from the
aggregate bounding box of all returned meshes. -/
theorem loadTerrain_multi_mesh (terrainName : String) (probe : String → ProbeResult)
    (importer : String → Except Unit (List Mesh)) (prevMinY : ℚ) (heights : List ℚ)
    (ms : List Mesh) (hlen : 2 ≤ ms.length)
    (himp : importer (findObjFile terrainName probe) = Except.ok ms) :
    (loadTerrain terrainName probe importer prevMinY heights).farmMesh
        = FarmMesh.parent (ms.map processMesh)
    ∧ (∀ m ∈ entityMeshes (loadTerrain terrainName probe importer prevMinY
          heights).farmMesh,
        m.checkCollisions = true ∧ (m.hasMaterial = true → m.backFaceCulling = false))
    ∧ (loadTerrain terrainName probe importer prevMinY heights).terrainMinY
        = (aggregateBBox ms).min.y - 1 := by
  match ms, hlen with
  | m :: r :: rs, _ =>
      rw [loadTerrain]
      simp only [findObjFile_ne_empty terrainName probe, if_false, himp]
      refine ⟨rfl, ?_, rfl⟩
      intro x hx
      simp only [entityMeshes, processEntity, List.mem_map] at hx
      obtain ⟨y, _, rfl⟩ := hx
      refine ⟨rfl, ?_⟩
      intro hmat
      have hm : y.hasMaterial = true := hmat
      simp [processMesh, hm]

/-- C3 witness: an import returning three mesh parts yields the composite
parent wrapping all three processed parts, every part collision-enabled and
culling-disabled, with `terrainMinY = −9` from the combined bounding box
(min Y = −8 comes from the third part alone — no single part's box gives
the same floor as the aggregate unless it attains the combined minimum). -/
theorem loadTerrain_multi_mesh_witness :
    (loadTerrain "BlockAB" (fun _ => ProbeResult.ok)
        (fun _ => Except.ok
          [⟨"p0", ⟨⟨-3, 0, -4⟩, ⟨3, 7, 4⟩⟩, false, true, true⟩,
           ⟨"p1", ⟨⟨-6, 1, -2⟩, ⟨9, 2, 2⟩⟩, false, false, true⟩,
           ⟨"p2", ⟨⟨-1, -8, -1⟩, ⟨1, 12, 1⟩⟩, false, true, true⟩])
        (-5) []).farmMesh
      = FarmMesh.parent
          ([⟨"p0", ⟨⟨-3, 0, -4⟩, ⟨3, 7, 4⟩⟩, false, true, true⟩,
            ⟨"p1", ⟨⟨-6, 1, -2⟩, ⟨9, 2, 2⟩⟩, false, false, true⟩,
            ⟨"p2", ⟨⟨-1, -8, -1⟩, ⟨1, 12, 1⟩⟩, false, true, true⟩].map processMesh)
    ∧ (∀ m ∈ entityMeshes (loadTerrain "BlockAB" (fun _ => ProbeResult.ok)
          (fun _ => Except.ok
            [⟨"p0", ⟨⟨-3, 0, -4⟩, ⟨3, 7, 4⟩⟩, false, true, true⟩,
             ⟨"p1", ⟨⟨-6, 1, -2⟩, ⟨9, 2, 2⟩⟩, false, false, true⟩,
             ⟨"p2", ⟨⟨-1, -8, -1⟩, ⟨1, 12, 1⟩⟩, false, true, true⟩])
          (-5) []).farmMesh,
        m.checkCollisions = true ∧ (m.hasMaterial = true → m.backFaceCulling = false))
    ∧ (loadTerrain "BlockAB" (fun _ => ProbeResult.ok)
        (fun _ => Except.ok
          [⟨"p0", ⟨⟨-3, 0, -4⟩, ⟨3, 7, 4⟩⟩, false, true, true⟩,
           ⟨"p1", ⟨⟨-6, 1, -2⟩, ⟨9, 2, 2⟩⟩, false, false, true⟩,
           ⟨"p2", ⟨⟨-1, -8, -1⟩, ⟨1, 12, 1⟩⟩, false, true, true⟩])
        (-5) []).terrainMinY = -9 := by
  have h := loadTerrain_multi_mesh "BlockAB" (fun _ => ProbeResult.ok)
    (fun _ => Except.ok
      [⟨"p0", ⟨⟨-3, 0, -4⟩, ⟨3, 7, 4⟩⟩, false, true, true⟩,
       ⟨"p1", ⟨⟨-6, 1, -2⟩, ⟨9, 2, 2⟩⟩, false, false, true⟩,
       ⟨"p2", ⟨⟨-1, -8, -1⟩, ⟨1, 12, 1⟩⟩, false, true, true⟩])
    (-5) []
    [⟨"p0", ⟨⟨-3, 0, -4⟩, ⟨3, 7, 4⟩⟩, false, true, true⟩,
     ⟨"p1", ⟨⟨-6, 1, -2⟩, ⟨9, 2, 2⟩⟩, false, false, true⟩,
     ⟨"p2", ⟨⟨-1, -8, -1⟩, ⟨1, 12, 1⟩⟩, false, true, true⟩]
    (by decide) rfl
  refine ⟨h.1, h.2.1, ?_⟩
  rw [h.2.2]
  norm_num [aggregateBBox, bboxUnion, min_def, max_def]

/-! ## Movement settings (constructor constants) -/

/-- `this.playerHeight = 1.8`. -/
def playerHeight : ℚ := 9/5

/-- `this.moveSpeed = 0.08`. -/
def moveSpeed : ℚ := 2/25

/-- `this.verticalSpeed = 0.05`. -/
def verticalSpeed : ℚ := 1/20

/-! ## Movement update (`updateMovement`) -/

/-- `vector.scale(c)`: componentwise scaling. -/
def Vec3.scale (v : Vec3) (c : ℚ) : Vec3 := ⟨c * v.x, c * v.y, c * v.z⟩

lemma Vec3.add_x (a b : Vec3) : (a + b).x = a.x + b.x := rfl

lemma Vec3.add_y (a b : Vec3) : (a + b).y = a.y + b.y := rfl

lemma Vec3.add_z (a b : Vec3) : (a + b).z = a.z + b.z := rfl

/-- The per-frame raw input read by `updateMovement`: held keys W/S/A/D,
the mobile flag, and the movement joystick's state. -/
structure MoveInput where
  w : Bool
  s : Bool
  a : Bool
  d : Bool
  isMobile : Bool
  movementActive : Bool
  movementX : ℚ
  movementY : ℚ

/-- The movement-vector composition of `updateMovement`: start from zero,
add `forward`/`right` scaled by `moveSpeed` for each held key, then add the
movement joystick's contribution when active. -/
def composeMovement (forward right : Vec3) (inp : MoveInput) : Vec3 :=
  let m0 : Vec3 := ⟨0, 0, 0⟩
  let m1 := if inp.w then m0 + forward.scale moveSpeed else m0
  let m2 := if inp.s then m1 + forward.scale (-moveSpeed) else m1
  let m3 := if inp.a then m2 + right.scale (-moveSpeed) else m2
  let m4 := if inp.d then m3 + right.scale moveSpeed else m3
  if inp.isMobile && inp.movementActive then
    m4 + (forward.scale (inp.movementY * moveSpeed)
          + right.scale (inp.movementX * moveSpeed))
  else m4

/-- The horizontal step of `updateMovement`: when `movement.length() > 0`
(equivalently, the sum of squared components is positive), set
`movement.y = 0` and add the vector to the camera position; otherwise leave
the position unchanged. -/
def applyHorizontalMovement (pos movement : Vec3) : Vec3 :=
  if 0 < movement.x ^ 2 + movement.y ^ 2 + movement.z ^ 2 then
    pos + ⟨movement.x, 0, movement.z⟩
  else pos

/-- C8.  For every combination of key and joystick contributions, the
horizontal-movement step applies a vector whose Y component is exactly 0,
so it never changes the camera's Y coordinate. -/
theorem updateMovement_horizontal_zero_y (forward right : Vec3) (inp : MoveInput)
    (pos : Vec3) :
    (applyHorizontalMovement pos (composeMovement forward right inp)).y = pos.y
    ∧ (0 < (composeMovement forward right inp).x ^ 2
          + (composeMovement forward right inp).y ^ 2
          + (composeMovement forward right inp).z ^ 2 →
        applyHorizontalMovement pos (composeMovement forward right inp)
          = pos + ⟨(composeMovement forward right inp).x, 0,
                   (composeMovement forward right inp).z⟩) := by
  constructor
  · rw [applyHorizontalMovement]
    split_ifs with h
    · rw [Vec3.add_y]; ring
    · rfl
  · intro h
    rw [applyHorizontalMovement, if_pos h]

/-- C8 witness: with only W held and a forward vector that points straight
up (worst case for gravity interference), the applied horizontal vector is
zero in Y and the camera's Y coordinate is untouched. -/
theorem updateMovement_horizontal_zero_y_witness :
    (applyHorizontalMovement ⟨0, 0, 0⟩
        (composeMovement ⟨0, 1, 0⟩ ⟨0, 0, 1⟩
          ⟨true, false, false, false, false, false, 0, 0⟩)).y = 0
    ∧ applyHorizontalMovement ⟨0, 0, 0⟩
        (composeMovement ⟨0, 1, 0⟩ ⟨0, 0, 1⟩
          ⟨true, false, false, false, false, false, 0, 0⟩)
        = ⟨0, 0, 0⟩ + ⟨(composeMovement ⟨0, 1, 0⟩ ⟨0, 0, 1⟩
              ⟨true, false, false, false, false, false, 0, 0⟩).x, 0,
            (composeMovement ⟨0, 1, 0⟩ ⟨0, 0, 1⟩
              ⟨true, false, false, false, false, false, 0, 0⟩).z⟩ := by
  have h := updateMovement_horizontal_zero_y ⟨0, 1, 0⟩ ⟨0, 0, 1⟩
    ⟨true, false, false, false, false, false, 0, 0⟩ ⟨0, 0, 0⟩
  exact ⟨h.1, h.2 (by norm_num [composeMovement, Vec3.scale, Vec3.add_x, Vec3.add_y,
    Vec3.add_z, moveSpeed])⟩

/-- The vertical step of `updateMovement`: when the vertical intent is
nonzero, move to `newY = position.y + verticalMovement`, but never below
`terrainMinY + playerHeight`. -/
def applyVerticalMovement (posY verticalMovement terrainMinY : ℚ) : ℚ :=
  if verticalMovement ≠ 0 then
    let newY := posY + verticalMovement
    if terrainMinY + playerHeight ≤ newY then newY else terrainMinY + playerHeight
  else posY

/-- C5.  With a nonzero vertical intent, the resulting camera Y never drops
below `terrainMinY + playerHeight`; in particular with `terrainMinY = −6`
(so the floor line is −4.2) any fly-down intent applied at Y = −4.2 leaves
the camera at exactly −4.2. -/
theorem updateMovement_vertical_floor_clamp (posY vm terrainMinY : ℚ) (hvm : vm ≠ 0) :
    terrainMinY + playerHeight ≤ applyVerticalMovement posY vm terrainMinY
    ∧ (terrainMinY = -6 → posY = -21/5 → vm < 0 →
        applyVerticalMovement posY vm terrainMinY = -21/5) := by
  constructor
  · rw [applyVerticalMovement, if_pos hvm]
    show terrainMinY + playerHeight ≤
      if terrainMinY + playerHeight ≤ posY + vm then posY + vm
      else terrainMinY + playerHeight
    split_ifs with h
    · exact h
    · exact le_refl _
  · intro hmin hpos hneg
    subst hmin hpos
    rw [applyVerticalMovement, if_pos hvm]
    show (if (-6 : ℚ) + playerHeight ≤ -21/5 + vm then -21/5 + vm
          else (-6 : ℚ) + playerHeight) = -21/5
    rw [if_neg]
    · norm_num [playerHeight]
    · simp only [playerHeight]
      intro hle
      linarith

/-- C5 witness: fly-down intent −1 at camera Y = −4.2 over floor −6 keeps
the camera at −4.2, which satisfies the clamp line −6 + 1.8. -/
theorem updateMovement_vertical_floor_clamp_witness :
    (-6 : ℚ) + playerHeight ≤ applyVerticalMovement (-21/5) (-1) (-6)
    ∧ applyVerticalMovement (-21/5) (-1) (-6) = -21/5 := by
  have h := updateMovement_vertical_floor_clamp (-21/5) (-1) (-6) (by norm_num)
  exact ⟨h.1, h.2 rfl rfl (by norm_num)⟩

/-- The Q/E + mobile-button down contribution of `updateMovement`: the `q`
key branch shadows the mobile down button (`else if`), whose contribution
is halved. -/
def verticalDownContribution (q isMobile verticalDown : Bool) : ℚ :=
  if q then -verticalSpeed
  else if isMobile && verticalDown then -(verticalSpeed * (1/2))
  else 0

/-- The `e` key branch and the mobile up button, mirroring the down case. -/
def verticalUpContribution (e isMobile verticalUp : Bool) : ℚ :=
  if e then verticalSpeed
  else if isMobile && verticalUp then verticalSpeed * (1/2)
  else 0

/-- The total per-frame vertical intent accumulated by `updateMovement`. -/
def verticalIntent (q e isMobile verticalUp verticalDown : Bool) : ℚ :=
  verticalDownContribution q isMobile verticalDown
    + verticalUpContribution e isMobile verticalUp

/-- C10.  Desktop vertical keys strictly shadow the mobile buttons: while
`q` is held the down contribution is exactly `−verticalSpeed` whatever the
mobile down button does; the halved mobile contribution applies only when
`q` is not held — and symmetrically for `e` and the up button.  The two
sources never sum. -/
theorem updateMovement_vertical_priority (q e isMobile up down : Bool) :
    (q = true → verticalDownContribution q isMobile down = -verticalSpeed)
    ∧ (q = false → isMobile = true → down = true →
        verticalDownContribution q isMobile down = -(verticalSpeed * (1/2)))
    ∧ (q = false → (isMobile && down) = false →
        verticalDownContribution q isMobile down = 0)
    ∧ (e = true → verticalUpContribution e isMobile up = verticalSpeed)
    ∧ (e = false → isMobile = true → up = true →
        verticalUpContribution e isMobile up = verticalSpeed * (1/2))
    ∧ (e = false → (isMobile && up) = false →
        verticalUpContribution e isMobile up = 0) := by
  refine ⟨?_, ?_, ?_, ?_, ?_, ?_⟩ <;> intros <;>
    simp_all [verticalDownContribution, verticalUpContribution]

/-- C10 witness: with `q` held and the mobile down button pressed, the down
contribution is the full −0.05, not −0.075; with `q` released the mobile
down button contributes the halved −0.025. -/
theorem updateMovement_vertical_priority_witness :
    verticalDownContribution true true true = -verticalSpeed
    ∧ verticalDownContribution false true true = -(verticalSpeed * (1/2))
    ∧ verticalUpContribution true true true = verticalSpeed
    ∧ verticalUpContribution false true true = verticalSpeed * (1/2) := by
  refine ⟨?_, ?_, ?_, ?_⟩
  · exact (updateMovement_vertical_priority true true true true true).1 rfl
  · exact (updateMovement_vertical_priority false true true true true).2.1 rfl rfl rfl
  · exact (updateMovement_vertical_priority true true true true true).2.2.2.1 rfl
  · exact (updateMovement_vertical_priority false false true true
      true).2.2.2.2.1 rfl rfl rfl

/-! ## Spawn placement (`positionCameraForTerrain`, first-person branch) -/

/-- The first-person branch of `positionCameraForTerrain`: camera position
computed from the terrain bounding box's center and size. -/
def positionCameraForTerrainFP (bb : BBox) : Vec3 :=
  let center : Vec3 := ⟨(bb.min.x + bb.max.x) / 2, (bb.min.y + bb.max.y) / 2,
                        (bb.min.z + bb.max.z) / 2⟩
  let size : Vec3 := ⟨bb.max.x - bb.min.x, bb.max.y - bb.min.y, bb.max.z - bb.min.z⟩
  ⟨center.x,
   max (center.y + playerHeight) (bb.max.y + playerHeight),
   center.z + max (size.z * (2/5)) 10⟩

/-- C7.  The walking-camera spawn equals
`(center.x, max(center.y, max.y) + playerHeight, center.z + max(0.4·extent.z, 10))`;
hence for every box with `extent.z ≥ 0` the spawn's Z-offset from center is
at least 10, and for `extent.z = 40` it is exactly 16. -/
theorem positionCameraForTerrainFP_spec (bb : BBox) :
    positionCameraForTerrainFP bb
      = ⟨(bb.min.x + bb.max.x) / 2,
         max ((bb.min.y + bb.max.y) / 2) bb.max.y + playerHeight,
         (bb.min.z + bb.max.z) / 2 + max ((2/5) * (bb.max.z - bb.min.z)) 10⟩
    ∧ (0 ≤ bb.max.z - bb.min.z →
        10 ≤ (positionCameraForTerrainFP bb).z - (bb.min.z + bb.max.z) / 2)
    ∧ (bb.max.z - bb.min.z = 40 →
        (positionCameraForTerrainFP bb).z - (bb.min.z + bb.max.z) / 2 = 16) := by
  refine ⟨?_, ?_, ?_⟩
  · rw [positionCameraForTerrainFP]
    refine congrArg₂ (fun a c => Vec3.mk _ a c) ?_ ?_
    · rw [max_add_add_right]
    · rw [mul_comm]
  · intro _
    rw [positionCameraForTerrainFP]
    simp only [add_sub_cancel_left]
    exact le_max_right _ _
  · intro h40
    rw [positionCameraForTerrainFP]
    simp only [add_sub_cancel_left, h40]
    rw [max_eq_left (by norm_num)]
    norm_num

/-- C7 witness: bounding box min (0,0,0), max (10,5,40): extent.z = 40, so
the spawn Z-offset from center is exactly 16 (and at least 10). -/
theorem positionCameraForTerrainFP_spec_witness :
    10 ≤ (positionCameraForTerrainFP ⟨⟨0, 0, 0⟩, ⟨10, 5, 40⟩⟩).z - ((0 : ℚ) + 40) / 2
    ∧ (positionCameraForTerrainFP ⟨⟨0, 0, 0⟩, ⟨10, 5, 40⟩⟩).z - ((0 : ℚ) + 40) / 2 = 16 := by
  have h := positionCameraForTerrainFP_spec ⟨⟨0, 0, 0⟩, ⟨10, 5, 40⟩⟩
  exact ⟨h.2.1 (by norm_num), h.2.2 (by norm_num)⟩

/-! ## Look handlers and pitch clamp

The look code uses `Math.PI` and `Math.sqrt`, so this part of the model
lives over `ℝ`. -/

noncomputable section

/-- `this.mouseSensitivity = 0.002`. -/
def mouseSensitivity : ℝ := 1/500

/-- One pitch-affecting look event, through any of the three handlers:
pointer-locked mouse movement, the look joystick, or raw canvas
touch-drag. -/
inductive LookStep where
  | mouseMove (movementY : ℝ)
  | joystickLook (lookY : ℝ)
  | touchDrag (deltaY : ℝ)

/-- The delta each handler adds to `camera.rotation.x` before clamping:
mouse movement at `mouseSensitivity`; the look joystick at doubled
sensitivity with inverted Y; raw touch-drag at half sensitivity. -/
def pitchDelta : LookStep → ℝ
  | LookStep.mouseMove movementY => movementY * mouseSensitivity
  | LookStep.joystickLook lookY => -(lookY * (mouseSensitivity * 2))
  | LookStep.touchDrag deltaY => deltaY * mouseSensitivity * (1/2)

/-- The clamp every handler applies:
`Math.max(-Math.PI / 2, Math.min(Math.PI / 2, rotation.x))`. -/
def clampPitch (x : ℝ) : ℝ := max (-(Real.pi / 2)) (min (Real.pi / 2) x)

/-- One handler invocation: accumulate the delta into the stored pitch,
then clamp. -/
def applyLookStep (x : ℝ) (s : LookStep) : ℝ := clampPitch (x + pitchDelta s)

/-- A sequence of look events applied to the stored pitch. -/
def applyLookSeq (x0 : ℝ) (steps : List LookStep) : ℝ := steps.foldl applyLookStep x0

/-- Total pitch delta carried by a sequence of look events. -/
def sumPitchDeltas (steps : List LookStep) : ℝ := (steps.map pitchDelta).sum

end

lemma applyLookSeq_cons (x0 : ℝ) (s : LookStep) (ss : List LookStep) :
    applyLookSeq x0 (s :: ss) = applyLookSeq (applyLookStep x0 s) ss := rfl

lemma sumPitchDeltas_cons (s : LookStep) (ss : List LookStep) :
    sumPitchDeltas (s :: ss) = pitchDelta s + sumPitchDeltas ss := by
  simp [sumPitchDeltas]

lemma abs_clampPitch (x : ℝ) : |clampPitch x| ≤ Real.pi / 2 := by
  rw [abs_le]
  constructor
  · exact le_max_left _ _
  · apply max_le
    · linarith [Real.pi_pos]
    · exact min_le_left _ _

lemma applyLookSeq_abs (steps : List LookStep) (x0 : ℝ) (h0 : |x0| ≤ Real.pi / 2) :
    |applyLookSeq x0 steps| ≤ Real.pi / 2 := by
  induction steps generalizing x0 with
  | nil => exact h0
  | cons s ss ih =>
      rw [applyLookSeq_cons]
      exact ih _ (abs_clampPitch _)

lemma clampPitch_ge_min (y : ℝ) : min (Real.pi / 2) y ≤ clampPitch y :=
  le_max_right _ _

lemma clampPitch_le_max (y : ℝ) : clampPitch y ≤ max (-(Real.pi / 2)) y :=
  max_le_max (le_refl _) (min_le_right _ _)

lemma sumPitchDeltas_nonpos (ss : List LookStep) (h : ∀ t ∈ ss, pitchDelta t ≤ 0) :
    sumPitchDeltas ss ≤ 0 := by
  induction ss with
  | nil =>
      have : sumPitchDeltas [] = 0 := rfl
      rw [this]
  | cons s ss ih =>
      rw [sumPitchDeltas_cons]
      have h1 := h s (by simp)
      have h2 := ih (fun t ht => h t (by simp [ht]))
      linarith

lemma applyLookSeq_lower (steps : List LookStep) (x0 : ℝ)
    (hpos : ∀ s ∈ steps, 0 ≤ pitchDelta s) :
    min (Real.pi / 2) (x0 + sumPitchDeltas steps) ≤ applyLookSeq x0 steps := by
  induction steps generalizing x0 with
  | nil =>
      have : applyLookSeq x0 [] = x0 := rfl
      rw [this]
      have : sumPitchDeltas [] = 0 := rfl
      rw [this, add_zero]
      exact min_le_right _ _
  | cons s ss ih =>
      have hd : 0 ≤ pitchDelta s := hpos s (by simp)
      have hrest : ∀ t ∈ ss, 0 ≤ pitchDelta t := fun t ht => hpos t (by simp [ht])
      have hsum : 0 ≤ sumPitchDeltas ss := by
        apply List.sum_nonneg
        intro a ha
        obtain ⟨t, ht, rfl⟩ := List.mem_map.mp ha
        exact hrest t ht
      rw [applyLookSeq_cons, sumPitchDeltas_cons]
      have hkey : min (Real.pi / 2) (x0 + (pitchDelta s + sumPitchDeltas ss))
          ≤ min (Real.pi / 2) (clampPitch (x0 + pitchDelta s) + sumPitchDeltas ss) := by
        rcases le_total (x0 + pitchDelta s) (Real.pi / 2) with hle | hge
        · have h1 : x0 + pitchDelta s ≤ clampPitch (x0 + pitchDelta s) := by
            have := clampPitch_ge_min (x0 + pitchDelta s)
            rwa [min_eq_right hle] at this
          rw [← add_assoc]
          exact min_le_min (le_refl _) (add_le_add_right h1 _)
        · have h1 : Real.pi / 2 ≤ clampPitch (x0 + pitchDelta s) := by
            have := clampPitch_ge_min (x0 + pitchDelta s)
            rwa [min_eq_left hge] at this
          have h2 : Real.pi / 2 ≤ clampPitch (x0 + pitchDelta s) + sumPitchDeltas ss := by
            linarith
          rw [min_eq_left h2]
          exact min_le_left _ _
      exact le_trans hkey (ih _ hrest)

lemma applyLookSeq_upper (steps : List LookStep) (x0 : ℝ)
    (hneg : ∀ s ∈ steps, pitchDelta s ≤ 0) :
    applyLookSeq x0 steps ≤ max (-(Real.pi / 2)) (x0 + sumPitchDeltas steps) := by
  induction steps generalizing x0 with
  | nil =>
      have h1 : applyLookSeq x0 [] = x0 := rfl
      have h2 : sumPitchDeltas [] = 0 := rfl
      rw [h1, h2, add_zero]
      exact le_max_right _ _
  | cons s ss ih =>
      have hrest : ∀ t ∈ ss, pitchDelta t ≤ 0 := fun t ht => hneg t (by simp [ht])
      have hsum : sumPitchDeltas ss ≤ 0 := sumPitchDeltas_nonpos ss hrest
      rw [applyLookSeq_cons, sumPitchDeltas_cons]
      have hkey : max (-(Real.pi / 2)) (clampPitch (x0 + pitchDelta s) + sumPitchDeltas ss)
          ≤ max (-(Real.pi / 2)) (x0 + (pitchDelta s + sumPitchDeltas ss)) := by
        rcases le_total (-(Real.pi / 2)) (x0 + pitchDelta s) with hle | hge
        · have h1 : clampPitch (x0 + pitchDelta s) ≤ x0 + pitchDelta s := by
            have := clampPitch_le_max (x0 + pitchDelta s)
            rwa [max_eq_right hle] at this
          rw [← add_assoc]
          exact max_le_max (le_refl _) (add_le_add_right h1 _)
        · have h1 : clampPitch (x0 + pitchDelta s) ≤ -(Real.pi / 2) := by
            have := clampPitch_le_max (x0 + pitchDelta s)
            rwa [max_eq_left hge] at this
          have h2 : clampPitch (x0 + pitchDelta s) + sumPitchDeltas ss ≤ -(Real.pi / 2) := by
            linarith
          rw [max_eq_left h2]
          exact le_max_left _ _
      exact le_trans (ih _ hrest) hkey

/-- C6.  Starting from any in-range pitch, every sequence of look events
through any mix of the three handlers keeps the stored pitch within
[−π/2, π/2]; and a sequence whose deltas are all upward (resp. downward)
and sum past the limit parks the pitch at exactly π/2 (resp. −π/2). -/
theorem pitch_clamp_invariant (x0 : ℝ) (steps : List LookStep)
    (h0 : |x0| ≤ Real.pi / 2) :
    |applyLookSeq x0 steps| ≤ Real.pi / 2
    ∧ ((∀ s ∈ steps, 0 ≤ pitchDelta s) → Real.pi / 2 ≤ x0 + sumPitchDeltas steps →
        applyLookSeq x0 steps = Real.pi / 2)
    ∧ ((∀ s ∈ steps, pitchDelta s ≤ 0) → x0 + sumPitchDeltas steps ≤ -(Real.pi / 2) →
        applyLookSeq x0 steps = -(Real.pi / 2)) := by
  refine ⟨applyLookSeq_abs steps x0 h0, ?_, ?_⟩
  · intro hpos hsum
    have hlow := applyLookSeq_lower steps x0 hpos
    rw [min_eq_left hsum] at hlow
    have hup := (abs_le.mp (applyLookSeq_abs steps x0 h0)).2
    linarith
  · intro hneg hsum
    have hup := applyLookSeq_upper steps x0 hneg
    rw [max_eq_left hsum] at hup
    have hlow := (abs_le.mp (applyLookSeq_abs steps x0 h0)).1
    linarith

/-- C6 witness: from pitch 0, one pointer-locked mouse event with
`movementY = 1000` carries delta 2 > π/2, and the stored pitch lands at
exactly π/2. -/
theorem pitch_clamp_invariant_witness :
    |applyLookSeq 0 [LookStep.mouseMove 1000]| ≤ Real.pi / 2
    ∧ applyLookSeq 0 [LookStep.mouseMove 1000] = Real.pi / 2 := by
  have h0 : |(0 : ℝ)| ≤ Real.pi / 2 := by
    rw [abs_zero]
    positivity
  have h := pitch_clamp_invariant 0 [LookStep.mouseMove 1000] h0
  refine ⟨h.1, h.2.1 ?_ ?_⟩
  · intro s hs
    simp only [List.mem_singleton] at hs
    subst hs
    rw [pitchDelta, mouseSensitivity]
    norm_num
  · have hsum : sumPitchDeltas [LookStep.mouseMove 1000] = 2 := by
      rw [sumPitchDeltas]
      simp [pitchDelta, mouseSensitivity]
      norm_num
    rw [hsum]
    linarith [Real.pi_le_four]

/-! ## Joystick normalization (`normalizeJoystickInput`) -/

/-- The record `{x, y, distance}` returned by `normalizeJoystickInput`. -/
structure JoystickOutput where
  x : ℝ
  y : ℝ
  distance : ℝ

/-- `normalizeJoystickInput(x, y, centerX, centerY, maxDistance)`: offset
from the joystick center, its Euclidean length, and the two branches —
beyond the max radius, the direction-preserving unit vector (the source's
`maxDistance / maxDistance` factor included verbatim); within it, the
offset divided by the max radius. -/
noncomputable def normalizeJoystickInput (px py centerX centerY maxDistance : ℝ) :
    JoystickOutput :=
  let deltaX := px - centerX
  let deltaY := py - centerY
  let distance := Real.sqrt (deltaX * deltaX + deltaY * deltaY)
  if maxDistance < distance then
    ⟨deltaX / distance * (maxDistance / maxDistance),
     deltaY / distance * (maxDistance / maxDistance),
     maxDistance⟩
  else
    ⟨deltaX / maxDistance, deltaY / maxDistance, distance⟩

/-- C9.  For a positive max radius: a drag beyond the max radius yields an
output of magnitude exactly 1 pointing in the same direction as the raw
offset (a positive scalar multiple of it); a drag within the max radius
yields the offset divided by the max radius, of magnitude at most 1. -/
theorem normalizeJoystickInput_clamp (px py cx cy m : ℝ) (hm : 0 < m) :
    (m < Real.sqrt ((px - cx) * (px - cx) + (py - cy) * (py - cy)) →
      Real.sqrt ((normalizeJoystickInput px py cx cy m).x
            * (normalizeJoystickInput px py cx cy m).x
          + (normalizeJoystickInput px py cx cy m).y
            * (normalizeJoystickInput px py cx cy m).y) = 1
      ∧ ∃ c : ℝ, 0 < c
          ∧ (normalizeJoystickInput px py cx cy m).x = c * (px - cx)
          ∧ (normalizeJoystickInput px py cx cy m).y = c * (py - cy))
    ∧ (Real.sqrt ((px - cx) * (px - cx) + (py - cy) * (py - cy)) ≤ m →
      (normalizeJoystickInput px py cx cy m).x = (px - cx) / m
      ∧ (normalizeJoystickInput px py cx cy m).y = (py - cy) / m
      ∧ Real.sqrt ((normalizeJoystickInput px py cx cy m).x
            * (normalizeJoystickInput px py cx cy m).x
          + (normalizeJoystickInput px py cx cy m).y
            * (normalizeJoystickInput px py cx cy m).y) ≤ 1) := by
  have hs : (0 : ℝ) ≤ (px - cx) * (px - cx) + (py - cy) * (py - cy) :=
    add_nonneg (mul_self_nonneg _) (mul_self_nonneg _)
  constructor
  · intro hgt
    have hd0 : 0 < Real.sqrt ((px - cx) * (px - cx) + (py - cy) * (py - cy)) :=
      lt_trans hm hgt
    have hout : normalizeJoystickInput px py cx cy m
        = ⟨(px - cx) / Real.sqrt ((px - cx) * (px - cx) + (py - cy) * (py - cy)) * (m / m),
           (py - cy) / Real.sqrt ((px - cx) * (px - cx) + (py - cy) * (py - cy)) * (m / m),
           m⟩ := by
      simp only [normalizeJoystickInput]
      rw [if_pos hgt]
    have hmm : m / m = 1 := div_self (ne_of_gt hm)
    have hsq : Real.sqrt ((px - cx) * (px - cx) + (py - cy) * (py - cy))
        * Real.sqrt ((px - cx) * (px - cx) + (py - cy) * (py - cy))
        = (px - cx) * (px - cx) + (py - cy) * (py - cy) := Real.mul_self_sqrt hs
    have hspos : 0 < (px - cx) * (px - cx) + (py - cy) * (py - cy) := by
      have := Real.sqrt_pos.mp hd0
      exact this
    rw [hout]
    refine ⟨?_, ?_⟩
    · show Real.sqrt
        ((px - cx) / Real.sqrt ((px - cx) * (px - cx) + (py - cy) * (py - cy)) * (m / m)
          * ((px - cx) / Real.sqrt ((px - cx) * (px - cx) + (py - cy) * (py - cy)) * (m / m))
        + (py - cy) / Real.sqrt ((px - cx) * (px - cx) + (py - cy) * (py - cy)) * (m / m)
          * ((py - cy) / Real.sqrt ((px - cx) * (px - cx) + (py - cy) * (py - cy)) * (m / m)))
        = 1
      rw [hmm, mul_one, mul_one]
      rw [div_mul_div_comm, div_mul_div_comm, div_add_div_same, hsq,
        div_self (ne_of_gt hspos), Real.sqrt_one]
    · refine ⟨1 / Real.sqrt ((px - cx) * (px - cx) + (py - cy) * (py - cy)),
        one_div_pos.mpr hd0, ?_, ?_⟩
      · show (px - cx) / Real.sqrt ((px - cx) * (px - cx) + (py - cy) * (py - cy)) * (m / m)
            = 1 / Real.sqrt ((px - cx) * (px - cx) + (py - cy) * (py - cy)) * (px - cx)
        rw [hmm]
        ring
      · show (py - cy) / Real.sqrt ((px - cx) * (px - cx) + (py - cy) * (py - cy)) * (m / m)
            = 1 / Real.sqrt ((px - cx) * (px - cx) + (py - cy) * (py - cy)) * (py - cy)
        rw [hmm]
        ring
  · intro hle
    have hout : normalizeJoystickInput px py cx cy m
        = ⟨(px - cx) / m, (py - cy) / m,
           Real.sqrt ((px - cx) * (px - cx) + (py - cy) * (py - cy))⟩ := by
      simp only [normalizeJoystickInput]
      rw [if_neg (not_lt.mpr hle)]
    rw [hout]
    refine ⟨rfl, rfl, ?_⟩
    show Real.sqrt ((px - cx) / m * ((px - cx) / m) + (py - cy) / m * ((py - cy) / m)) ≤ 1
    rw [div_mul_div_comm, div_mul_div_comm, div_add_div_same,
      Real.sqrt_div hs, Real.sqrt_mul_self (le_of_lt hm)]
    rw [div_le_one hm]
    exact hle

/-- C9 witness: raw drag offset (3, 4) from the center, max radius 1: the
distance 5 exceeds the radius, the output has magnitude exactly 1, and it
is the positive multiple 1/5 of the raw offset. -/
theorem normalizeJoystickInput_clamp_witness :
    Real.sqrt ((normalizeJoystickInput 3 4 0 0 1).x * (normalizeJoystickInput 3 4 0 0 1).x
        + (normalizeJoystickInput 3 4 0 0 1).y * (normalizeJoystickInput 3 4 0 0 1).y) = 1
    ∧ ∃ c : ℝ, 0 < c
        ∧ (normalizeJoystickInput 3 4 0 0 1).x = c * (3 - 0)
        ∧ (normalizeJoystickInput 3 4 0 0 1).y = c * (4 - 0) := by
  have h := normalizeJoystickInput_clamp 3 4 0 0 1 (by norm_num)
  apply h.1
  have h25 : ((3 : ℝ) - 0) * (3 - 0) + (4 - 0) * (4 - 0) = 25 := by norm_num
  rw [h25]
  have h5 : Real.sqrt 25 = 5 := by
    rw [show (25 : ℝ) = 5 ^ 2 by norm_num, Real.sqrt_sq (by norm_num : (0 : ℝ) ≤ 5)]
  rw [h5]
  norm_num

end FarmViewer
